import Mathlib

/-!
# Verification of the Mickey realtime voice pipeline

Shallow embedding of the voice-session pipeline of the Mickey client:
the audio codec utilities, the playback scheduler (`LiveClient.playAudio`),
the capture tick handler (`processor.onaudioprocess`), the inbound message
handler (the `onmessage` callback of `LiveClient.connect`), mute control
(`LiveClient.setMute`), teardown (`LiveClient.disconnect`), and the
turn-merging transcript accumulator of the `VoiceMode` component.

Times and sample values are modelled as rationals (`ℚ`); machine floats in
the source carry exact small rationals in every scenario considered here.
-/

namespace Mickey

/-! ## Audio codec utilities

`audioUtils.ts` (`createPcmBlob`, `decodeAudioData`) is imported by
`geminiService.ts` but its source is not part of the corpus, so the codec is
modelled from the specification (§4.1). -/

/-- Modelled from the spec: clamping of a sample to `[-1, 1]` performed by
`encode` (`createPcmBlob` in `audioUtils.ts`, not in the corpus). -/
def clampSample (s : ℚ) : ℚ := max (-1) (min 1 s)

/-- Modelled from the spec: rounding to the nearest integer, halves toward
`+∞`, matching JavaScript `Math.round` semantics
(`Math.round x = ⌊x + 1/2⌋`). -/
def jsRound (x : ℚ) : ℤ := ⌊x + 1/2⌋

/-- Modelled from the spec: quantization of one sample, `round (s * 32767)`
after clamping to `[-1, 1]`. -/
def quantize (s : ℚ) : ℤ := jsRound (clampSample s * 32767)

/-- Modelled from the spec: the two bytes (little-endian, two's complement)
of one 16-bit sample value. -/
def toBytesLE (q : ℤ) : List ℕ :=
  [(q % 65536).toNat % 256, (q % 65536).toNat / 256]

/-- Modelled from the spec: reading one 16-bit little-endian signed sample
value from its two bytes. -/
def fromBytesLE (lo hi : ℕ) : ℤ :=
  if lo % 256 + 256 * (hi % 256) < 32768 then ((lo % 256 + 256 * (hi % 256) : ℕ) : ℤ)
  else ((lo % 256 + 256 * (hi % 256) : ℕ) : ℤ) - 65536

/-- An encoded audio chunk: PCM bytes plus a MIME descriptor (spec §3,
`EncodedAudioChunk`). -/
structure EncodedAudioChunk where
  data : List ℕ
  mimeType : String
  deriving Repr, DecidableEq

/-- Modelled from the spec: `encode` (`createPcmBlob`) maps each sample to a
16-bit little-endian signed integer `round (s * 32767)` and tags the bytes
with the MIME descriptor `audio/pcm;rate=16000`. -/
def encode (frame : List ℚ) : EncodedAudioChunk :=
  { data := (frame.map quantize).flatMap toBytesLE
    mimeType := "audio/pcm;rate=16000" }

/-- Decode failure taxonomy (spec §7). -/
inductive DecodeError where
  | invalidLength
  deriving Repr, DecidableEq

/-- Modelled from the spec: sample extraction of `decode`
(`decodeAudioData`), interpreting bytes pairwise as 16-bit little-endian
PCM and mapping each value back via `s / 32768`. -/
def decodeSamples : List ℕ → List ℚ
  | lo :: hi :: rest => (fromBytesLE lo hi : ℚ) / 32768 :: decodeSamples rest
  | _ => []

/-- Modelled from the spec: `decode` (`decodeAudioData`) fails with
`DecodeError` when the byte length is not a multiple of 2 bytes per sample
per channel, and otherwise produces the floating-point samples. -/
def decode (bytes : List ℕ) (channels : ℕ) : Except DecodeError (List ℚ) :=
  if bytes.length % (2 * channels) = 0 then
    .ok (decodeSamples bytes)
  else
    .error .invalidLength

/-! ## Playback scheduler

Embedding of `LiveClient.playAudio` (`src/services/geminiService.ts`
lines 377–394):
```
this.nextStartTime = Math.max(this.outputAudioContext.currentTime, this.nextStartTime);
source.start(this.nextStartTime);
this.nextStartTime += buffer.duration;
```
-/

/-- One scheduling step of `playAudio`: given the timeline cursor `t0`
(`nextStartTime`), the clock reading `clock` (`currentTime`) and the buffer
duration `dur`, returns the start time assigned to the buffer and the new
cursor value. -/
def playAudioStep (t0 clock dur : ℚ) : ℚ × ℚ :=
  let startAt := max clock t0
  (startAt, startAt + dur)

/-- Iterated `playAudio` over a list of arrivals `(clock, duration)`:
the list of scheduled intervals `(startAt, duration)`. -/
def schedule (t0 : ℚ) : List (ℚ × ℚ) → List (ℚ × ℚ)
  | [] => []
  | (c, d) :: rest =>
      let p := playAudioStep t0 c d
      (p.1, d) :: schedule p.2 rest

/-- The successive values of the timeline cursor `nextStartTime` after each
enqueue of `playAudio`. -/
def nextTimes (t0 : ℚ) : List (ℚ × ℚ) → List ℚ
  | [] => []
  | (c, d) :: rest =>
      let p := playAudioStep t0 c d
      p.2 :: nextTimes p.2 rest

/-! ## LiveClient state

Embedding of the `LiveClient` class of `src/services/geminiService.ts`.
Audio contexts are `Option Bool` (`none` = the field is still `null`,
`some b` = a context whose openness is `b`); the session is `Option Unit`
(`none` = `null`). -/

/-- Playback status of one `AudioBufferSourceNode` tracked in
`LiveClient.sources`. -/
inductive SrcStatus where
  | playing
  | stopped
  | finished
  deriving Repr, DecidableEq

/-- One scheduled playback source: whether `start()` has been called on it,
and its playback status. -/
structure Source where
  started : Bool
  status : SrcStatus
  deriving Repr, DecidableEq

/-- `AudioBufferSourceNode.stop()`: throws `InvalidStateError` when
`start()` was never called on the node, otherwise halts it (a no-op on a
node that has already stopped or finished). -/
def Source.stop (s : Source) : Except String Source :=
  if s.started then
    .ok { s with status := if s.status = .playing then .stopped else s.status }
  else
    .error "InvalidStateError"

/-- The mutable state of a `LiveClient` instance (fields declared at
`src/services/geminiService.ts` lines 266–271). -/
structure ClientState where
  session : Option Unit
  inputCtx : Option Bool
  outputCtx : Option Bool
  nextStartTime : ℚ
  sources : List Source
  isMuted : Bool
  deriving Repr, DecidableEq

/-- Field initializers of `LiveClient`: `session = null`, contexts `null`,
`nextStartTime = 0`, empty source set, not muted. -/
def initState : ClientState :=
  { session := none, inputCtx := none, outputCtx := none
    nextStartTime := 0, sources := [], isMuted := false }

/-- Observable callback invocations and outbound traffic of the client.
`volumeUpdate q` records a call `onVolumeUpdate v` with `v * v = q`
(the code passes the RMS, a square root; its square is kept so that the
embedding stays executable). `transcript text isUser delaySec` records a
delivery of `onTranscript` deferred by `delaySec` seconds. -/
inductive ClientEvent where
  | volumeUpdate (volSq : ℚ)
  | sendMedia (chunk : EncodedAudioChunk)
  | transcript (text : String) (isUser : Bool) (delaySec : ℚ)
  deriving Repr, DecidableEq

/-- Mean of the squared samples of a frame; the RMS computed by
`processor.onaudioprocess` is its square root. -/
def meanSq (frame : List ℚ) : ℚ :=
  (frame.map fun s => s * s).sum / frame.length

/-- Embedding of `processor.onaudioprocess`
(`src/services/geminiService.ts` lines 289–310): when muted, report volume
0 and send nothing; otherwise report the RMS volume, encode the frame and,
when a session promise exists, send the encoded chunk. The tick mutates no
client state. -/
def onaudioprocess (st : ClientState) (frame : List ℚ) : List ClientEvent :=
  if st.isMuted then
    [.volumeUpdate 0]
  else
    .volumeUpdate (meanSq frame) ::
      (if st.session.isSome then [.sendMedia (encode frame)] else [])

/-- The arguments of the `onVolumeUpdate` calls in an event list
(as squares, see `ClientEvent.volumeUpdate`). -/
def volumeValues (evs : List ClientEvent) : List ℚ :=
  evs.filterMap fun e =>
    match e with
    | .volumeUpdate q => some q
    | _ => none

/-- The encoded chunks forwarded to the outbound path in an event list. -/
def sentChunks (evs : List ClientEvent) : List EncodedAudioChunk :=
  evs.filterMap fun e =>
    match e with
    | .sendMedia c => some c
    | _ => none

/-- The transcript deliveries in an event list, as
`(text, isUser, delaySec)` triples. -/
def transcriptDeliveries (evs : List ClientEvent) : List (String × Bool × ℚ) :=
  evs.filterMap fun e =>
    match e with
    | .transcript t u d => some (t, u, d)
    | _ => none

/-- Embedding of `LiveClient.setMute` (lines 373–375): assigns the flag and
does nothing else; the event list it emits is empty. -/
def setMuteRun (st : ClientState) (muted : Bool) : ClientState × List ClientEvent :=
  ({ st with isMuted := muted }, [])

/-- Embedding of `LiveClient.playAudio` (lines 377–394) at the level of the
client state: a no-op when `outputAudioContext` is `null`; otherwise
schedules the buffer of duration `dur` at
`max (currentTime, nextStartTime)`, advances `nextStartTime` by `dur` and
adds the started source to the set. -/
def ClientState.playAudio (st : ClientState) (clock dur : ℚ) : ClientState :=
  if st.outputCtx.isSome then
    let p := playAudioStep st.nextStartTime clock dur
    { st with nextStartTime := p.2
              sources := st.sources ++ [{ started := true, status := .playing }] }
  else st

/-- An inbound `LiveServerMessage` as read by the `onmessage` callback:
optional output (model) transcription text, optional input (user)
transcription text, optional model audio (kept as the duration of the
decoded buffer). -/
structure ServerMessage where
  outputTranscription : Option String
  inputTranscription : Option String
  audioDuration : Option ℚ
  deriving Repr, DecidableEq

/-- Embedding of the `onmessage` callback of `LiveClient.connect`
(lines 323–351): reads the clock (`currentTime` of the output context, 0
when the context is `null`), computes
`latency = max 0 (nextStartTime - currentTime)`, delivers an output
transcription deferred by that latency, otherwise (`else if`) an input
transcription immediately, and finally enqueues any model audio through
`playAudio`. -/
def onmessage (st : ClientState) (clock : ℚ) (msg : ServerMessage) :
    ClientState × List ClientEvent :=
  let currentTime := if st.outputCtx.isSome then clock else 0
  let latency := max 0 (st.nextStartTime - currentTime)
  let tevs : List ClientEvent :=
    match msg.outputTranscription with
    | some t => [.transcript t false latency]
    | none =>
        match msg.inputTranscription with
        | some t => [.transcript t true 0]
        | none => []
  let st' :=
    match msg.audioDuration with
    | some d => if st.outputCtx.isSome then st.playAudio currentTime d else st
    | none => st
  (st', tevs)

/-- Embedding of `LiveClient.disconnect` (lines 396–403): stop every
tracked source, close both audio contexts (`?.close()`, a no-op on `null`),
and close the session when one exists. The source set and session field
are not cleared by the method itself. -/
def disconnect (st : ClientState) : Except String ClientState := do
  let srcs ← st.sources.mapM Source.stop
  pure { st with sources := srcs
                 inputCtx := st.inputCtx.map fun _ => false
                 outputCtx := st.outputCtx.map fun _ => false }

/-- Delivery of the pending `onended` callbacks (lines 391–393): every
source that is no longer playing is deleted from the set. -/
def processEnded (st : ClientState) : ClientState :=
  { st with sources := st.sources.filter fun s => s.status = .playing }

/-- Invariant maintained by the client: every tracked source has had
`start()` called on it (`playAudio` calls `source.start` before adding the
source to the set). -/
abbrev sourcesStarted (st : ClientState) : Prop :=
  ∀ s ∈ st.sources, s.started = true

/-! ## Connect outcomes

Embedding of the failure behaviour of `LiveClient.connect`
(lines 279–371). `connect` awaits `getUserMedia` — a rejection there
rejects `connect()` itself — but does **not** await `ai.live.connect`: the
session promise is stored and remote failures surface only through the
`onerror`/`onclose` callbacks, which call `onAudioActivity false`. -/

/-- Result of the microphone acquisition (`getUserMedia`). -/
inductive MicResult where
  | granted
  | denied
  deriving Repr, DecidableEq

/-- Outcome of the remote live-connection handshake. -/
inductive RemoteOutcome where
  | accepts
  | rejects
  deriving Repr, DecidableEq

/-- Connection-phase failure taxonomy (spec §7). -/
inductive ConnectError where
  | captureUnavailable
  deriving Repr, DecidableEq

/-- The observable outcome of one `connect()` episode: what the returned
promise does, the arguments of the `onAudioActivity` calls made during the
episode, and how many connection attempts were made. -/
structure ConnectOutcome where
  result : Except ConnectError Unit
  activityCalls : List Bool
  connectAttempts : ℕ
  deriving Repr

/-- Embedding of one `connect()` episode. When `getUserMedia` rejects,
`connect()` rejects before `ai.live.connect` is reached and no observer is
notified. When the microphone is granted, `connect()` resolves (the
session promise is not awaited); the remote handshake then drives
`onopen` → `onAudioActivity true` or `onerror` → `onAudioActivity false`.
No path retries. -/
def runConnect (mic : MicResult) (remote : RemoteOutcome) : ConnectOutcome :=
  match mic with
  | .denied =>
      { result := .error .captureUnavailable, activityCalls := [], connectAttempts := 1 }
  | .granted =>
      match remote with
      | .accepts => { result := .ok (), activityCalls := [true], connectAttempts := 1 }
      | .rejects => { result := .ok (), activityCalls := [false], connectAttempts := 1 }

/-! ## Turn merging

Embedding of the `onTranscript` callback installed by `VoiceMode`
(`src/unnamed/part_001` lines 33–66): same-speaker deliveries are appended
onto the most recent turn, a speaker change starts a new turn. -/

/-- Speaker role of an accumulated message (the `MessageRole` enum). -/
inductive MessageRole where
  | user
  | model
  deriving Repr, DecidableEq

/-- An accumulated conversation turn (the fields of `Message` the callback
reads and writes). -/
structure Turn where
  role : MessageRole
  text : String
  deriving Repr, DecidableEq

/-- The role assigned to a delivery: `isUser ? MessageRole.USER :
MessageRole.MODEL`. -/
def roleOf (isUser : Bool) : MessageRole :=
  if isUser then .user else .model

/-- One transcript delivery applied to the message list: when the last
message exists and has the same role, its text is extended; otherwise a new
turn is pushed. -/
def applyTranscript (prev : List Turn) (text : String) (isUser : Bool) : List Turn :=
  match prev.getLast? with
  | some lastMsg =>
      if lastMsg.role = roleOf isUser then
        prev.dropLast ++ [{ lastMsg with text := lastMsg.text ++ text }]
      else
        prev ++ [{ role := roleOf isUser, text := text }]
  | none => prev ++ [{ role := roleOf isUser, text := text }]

/-- A sequence of transcript deliveries `(text, isUser)` folded into the
message list. -/
def applyTranscripts (prev : List Turn) (evs : List (String × Bool)) : List Turn :=
  evs.foldl (fun acc ev => applyTranscript acc ev.1 ev.2) prev

/-! ## Auxiliary predicates and concrete inputs used by the theorems -/

/-- Every sample of the frame lies in `[-1, 1]`. -/
abbrev samplesInRange (frame : List ℚ) : Prop :=
  ∀ s ∈ frame, -1 ≤ s ∧ s ≤ 1

/-- Every buffer duration in an arrival list is nonnegative. -/
abbrev nonnegDurations (arr : List (ℚ × ℚ)) : Prop :=
  ∀ p ∈ arr, 0 ≤ p.2

/-- The arrival clock readings of a list of arrivals never decrease. -/
abbrev clocksMonotone (arr : List (ℚ × ℚ)) : Prop :=
  List.Chain' (fun p q => p.1 ≤ q.1) arr

/-- Consecutive scheduled intervals `[startAt, startAt + duration)` never
overlap: each interval ends no later than the next one starts. -/
abbrev noOverlap (sched : List (ℚ × ℚ)) : Prop :=
  List.Chain' (fun p q => p.1 + p.2 ≤ q.1) sched

/-- The scheduled start times are non-decreasing. -/
abbrev startAtMono (sched : List (ℚ × ℚ)) : Prop :=
  List.Chain' (fun p q => p.1 ≤ q.1) sched

/-- Zero gap: whenever an arrival observes a clock value at or before the
previous buffer's scheduled end, its buffer starts exactly at that end. -/
abbrev zeroGap (arr sched : List (ℚ × ℚ)) : Prop :=
  List.Chain' (fun pq pq' => pq'.1.1 ≤ pq.2.1 + pq.2.2 → pq'.2.1 = pq.2.1 + pq.2.2)
    (arr.zip sched)

/-- The timeline cursor `nextStartTime` never decreases across enqueues. -/
abbrev cursorMono (t0 : ℚ) (arr : List (ℚ × ℚ)) : Prop :=
  List.Chain' (fun a b => a ≤ b) (t0 :: nextTimes t0 arr)

/-- The effect of a successful `Source.stop`. -/
def stoppedSource (s : Source) : Source :=
  { s with status := if s.status = .playing then .stopped else s.status }

/-- The state left by a successful `disconnect`: every source stopped, both
contexts closed, session and source set untouched. -/
def disconnectRun (st : ClientState) : ClientState :=
  { st with sources := st.sources.map stoppedSource
            inputCtx := st.inputCtx.map fun _ => false
            outputCtx := st.outputCtx.map fun _ => false }

/-- A sequence of capture ticks over a fixed client state. -/
def onaudioticks (st : ClientState) (frames : List (List ℚ)) : List ClientEvent :=
  frames.flatMap (onaudioprocess st)

/-- A sample arrival sequence for witnesses: a late buffer, an early one,
and one arriving after playback drained. -/
def arrExample : List (ℚ × ℚ) := [(0, 1), (1/2, 1), (5, 2)]

/-- A client state mid-session: open contexts, live session, one playing
and one finished source, a cursor 2 seconds ahead. -/
def openClient : ClientState :=
  { session := some (), inputCtx := some true, outputCtx := some true
    nextStartTime := 2
    sources := [{ started := true, status := .playing },
                { started := true, status := .finished }]
    isMuted := false }

/-- The same state with the mute flag set. -/
def mutedClient : ClientState := { openClient with isMuted := true }

/-- A message carrying both an output and an input transcription. -/
def dualMsg : ServerMessage :=
  { outputTranscription := some "model", inputTranscription := some "user"
    audioDuration := none }

/-- A message carrying only an output (model) transcription. -/
def outMsgExample : ServerMessage :=
  { outputTranscription := some "hello", inputTranscription := none
    audioDuration := none }

/-- A message carrying only an input (user) transcription. -/
def inMsgExample : ServerMessage :=
  { outputTranscription := none, inputTranscription := some "hi"
    audioDuration := none }

deriving instance DecidableEq for Except

/-! ## Codec lemmas (C3) -/

theorem fromBytesLE_toBytesLE {q : ℤ} (h1 : -32768 ≤ q) (h2 : q ≤ 32767) :
    fromBytesLE ((q % 65536).toNat % 256) ((q % 65536).toNat / 256) = q := by
  unfold fromBytesLE
  split <;> omega

theorem clampSample_eq {s : ℚ} (h1 : -1 ≤ s) (h2 : s ≤ 1) : clampSample s = s := by
  rw [clampSample, min_eq_right h2, max_eq_right h1]

theorem quantize_bounds {s : ℚ} (h1 : -1 ≤ s) (h2 : s ≤ 1) :
    -32768 ≤ quantize s ∧ quantize s ≤ 32767 := by
  unfold quantize jsRound
  rw [clampSample_eq h1 h2]
  constructor
  · rw [Int.le_floor]
    push_cast
    nlinarith
  · have h3 : ⌊s * 32767 + 1/2⌋ < 32768 := by
      rw [Int.floor_lt]
      push_cast
      nlinarith
    omega

theorem quantize_close {s : ℚ} (h1 : -1 ≤ s) (h2 : s ≤ 1) :
    |(quantize s : ℚ) / 32768 - s| ≤ 3 / 65536 := by
  have hfl : ((⌊s * 32767 + 1/2⌋ : ℤ) : ℚ) ≤ s * 32767 + 1/2 := Int.floor_le _
  have hfg : s * 32767 + 1/2 < ((⌊s * 32767 + 1/2⌋ : ℤ) : ℚ) + 1 := Int.lt_floor_add_one _
  unfold quantize jsRound
  rw [clampSample_eq h1 h2, abs_le]
  constructor <;> nlinarith

theorem decodeSamples_encode (frame : List ℚ) (h : samplesInRange frame) :
    decodeSamples ((frame.map quantize).flatMap toBytesLE) =
      frame.map fun s => (quantize s : ℚ) / 32768 := by
  induction frame with
  | nil => rfl
  | cons a tl ih =>
      obtain ⟨ha1, ha2⟩ := h a (List.mem_cons_self _ _)
      obtain ⟨hq1, hq2⟩ := quantize_bounds ha1 ha2
      rw [List.map_cons, List.flatMap_cons, toBytesLE, List.cons_append, List.cons_append,
        List.nil_append, decodeSamples, fromBytesLE_toBytesLE hq1 hq2, List.map_cons,
        ih fun s hs => h s (List.mem_cons_of_mem _ hs)]

theorem encode_data_length (frame : List ℚ) :
    (encode frame).data.length = 2 * frame.length := by
  unfold encode
  induction frame with
  | nil => rfl
  | cons a tl ih =>
      simp only [List.map_cons, List.flatMap_cons, List.length_append, toBytesLE] at *
      simp [ih]
      omega

theorem decode_encode (frame : List ℚ) (h : samplesInRange frame) :
    decode (encode frame).data 1 = .ok (frame.map fun s => (quantize s : ℚ) / 32768) := by
  rw [decode, if_pos (by rw [encode_data_length]; omega)]
  rw [show (encode frame).data = (frame.map quantize).flatMap toBytesLE from rfl]
  rw [decodeSamples_encode frame h]

theorem decode_error_iff (bytes : List ℕ) (channels : ℕ) :
    decode bytes channels = .error .invalidLength ↔ ¬ (2 * channels) ∣ bytes.length := by
  have hmod : decode bytes channels = .error .invalidLength ↔
      ¬ bytes.length % (2 * channels) = 0 := by
    rw [decode]
    split <;> simp_all
  rw [hmod, Nat.dvd_iff_mod_eq_zero]

/-! ## Playback scheduling lemmas (C1) -/

theorem schedule_cons (t0 c d : ℚ) (tl : List (ℚ × ℚ)) :
    schedule t0 ((c, d) :: tl) = (max c t0, d) :: schedule (max c t0 + d) tl := rfl

theorem nextTimes_cons (t0 c d : ℚ) (tl : List (ℚ × ℚ)) :
    nextTimes t0 ((c, d) :: tl) = (max c t0 + d) :: nextTimes (max c t0 + d) tl := rfl

theorem schedule_head_ge (t : ℚ) (arr : List (ℚ × ℚ)) :
    ∀ y ∈ (schedule t arr).head?, t ≤ y.1 := by
  cases arr with
  | nil => simp [schedule]
  | cons p tl =>
      obtain ⟨c, d⟩ := p
      rw [schedule_cons]
      intro y hy
      simp at hy
      rw [← hy]
      exact le_max_right c t

theorem schedule_no_overlap (t0 : ℚ) (arr : List (ℚ × ℚ)) :
    noOverlap (schedule t0 arr) := by
  induction arr generalizing t0 with
  | nil => simp [schedule]
  | cons p tl ih =>
      obtain ⟨c, d⟩ := p
      rw [schedule_cons]
      refine List.chain'_cons'.mpr ⟨fun y hy => ?_, ih _⟩
      exact schedule_head_ge (max c t0 + d) tl y hy

theorem schedule_startAt_mono (t0 : ℚ) (arr : List (ℚ × ℚ))
    (hdur : nonnegDurations arr) :
    startAtMono (schedule t0 arr) := by
  induction arr generalizing t0 with
  | nil => simp [schedule]
  | cons p tl ih =>
      obtain ⟨c, d⟩ := p
      have h0 : (0 : ℚ) ≤ d := hdur _ (List.mem_cons_self _ _)
      have h' : nonnegDurations tl := fun q hq => hdur q (List.mem_cons_of_mem _ hq)
      rw [schedule_cons]
      refine List.chain'_cons'.mpr ⟨fun y hy => ?_, ih _ h'⟩
      have := schedule_head_ge (max c t0 + d) tl y hy
      dsimp only
      linarith

theorem schedule_zero_gap (t0 : ℚ) (arr : List (ℚ × ℚ)) :
    zeroGap arr (schedule t0 arr) := by
  induction arr generalizing t0 with
  | nil => exact List.chain'_nil
  | cons p tl ih =>
      obtain ⟨c, d⟩ := p
      unfold zeroGap
      rw [schedule_cons, List.zip_cons_cons]
      refine List.chain'_cons'.mpr ⟨fun y hy => ?_, ih _⟩
      cases tl with
      | nil => simp at hy
      | cons q tl' =>
          obtain ⟨c', d'⟩ := q
          rw [schedule_cons, List.zip_cons_cons] at hy
          simp at hy
          rw [← hy]
          intro hle
          dsimp only at hle ⊢
          exact max_eq_right hle

theorem nextTimes_mono (t0 : ℚ) (arr : List (ℚ × ℚ)) (hdur : nonnegDurations arr) :
    cursorMono t0 arr := by
  induction arr generalizing t0 with
  | nil => exact List.chain'_singleton _
  | cons p tl ih =>
      obtain ⟨c, d⟩ := p
      have h0 : (0 : ℚ) ≤ d := hdur _ (List.mem_cons_self _ _)
      have h' : nonnegDurations tl := fun q hq => hdur q (List.mem_cons_of_mem _ hq)
      unfold cursorMono
      rw [nextTimes_cons]
      refine List.chain'_cons.mpr ⟨?_, ih _ h'⟩
      have := le_max_right c t0
      linarith

/-- C1: for every arrival sequence with non-decreasing clock readings and
nonnegative buffer durations, iterating `playAudio` from any cursor value
yields non-overlapping scheduled intervals, non-decreasing start times,
zero gap whenever a buffer arrives at or before its predecessor's scheduled
end, and a non-decreasing `nextStartTime` cursor. -/
theorem playback_monotonic_gap_free (t0 : ℚ) (arr : List (ℚ × ℚ))
    (_hclock : clocksMonotone arr) (hdur : nonnegDurations arr) :
    noOverlap (schedule t0 arr) ∧ startAtMono (schedule t0 arr) ∧
    zeroGap arr (schedule t0 arr) ∧ cursorMono t0 arr :=
  ⟨schedule_no_overlap t0 arr, schedule_startAt_mono t0 arr hdur,
   schedule_zero_gap t0 arr, nextTimes_mono t0 arr hdur⟩

/-- C1 witness: the scheduling properties evaluated on the concrete arrival
sequence `arrExample` starting from cursor 0. -/
theorem playback_monotonic_gap_free_witness :
    clocksMonotone arrExample ∧ nonnegDurations arrExample ∧
    noOverlap (schedule 0 arrExample) ∧ cursorMono 0 arrExample := by
  have hc : clocksMonotone arrExample := by
    norm_num [arrExample, List.chain'_cons, List.chain'_singleton]
  have hd : nonnegDurations arrExample := by
    norm_num [arrExample, List.forall_mem_cons]
  have h := playback_monotonic_gap_free 0 arrExample hc hd
  exact ⟨hc, hd, h.1, h.2.2.2⟩

/-- C3 (amended): for every sample array with values in `[-1, 1]`, `decode`
of `encode` succeeds and reproduces each sample within `3/65536`
(quantization plus the `32767`/`32768` scale mismatch), and `decode` fails
with `DecodeError` exactly when the byte length is not a multiple of 2
bytes per sample per channel. -/
theorem codec_roundtrip (frame : List ℚ) (h : samplesInRange frame) :
    decode (encode frame).data 1 = .ok (frame.map fun s => (quantize s : ℚ) / 32768) ∧
    List.Forall₂ (fun s d => |d - s| ≤ 3 / 65536) frame
      (frame.map fun s => (quantize s : ℚ) / 32768) ∧
    ∀ bytes channels, decode bytes channels = .error .invalidLength ↔
      ¬ (2 * channels) ∣ bytes.length := by
  refine ⟨decode_encode frame h, ?_, decode_error_iff⟩
  induction frame with
  | nil => exact List.Forall₂.nil
  | cons a tl ih =>
      obtain ⟨h1, h2⟩ := h a (List.mem_cons_self _ _)
      exact List.Forall₂.cons (quantize_close h1 h2)
        (ih fun s hs => h s (List.mem_cons_of_mem _ hs))

/-- C3 counterexample: at the sample `49999/50000` the round trip misses by
`2101/51200000 > 1/32768`, so the claimed `1/32768` per-sample tolerance
fails. -/
theorem codec_roundtrip_counterexample :
    decode (encode [(49999 : ℚ)/50000]).data 1 = .ok [(16383 : ℚ)/16384] ∧
    ¬ |(16383 : ℚ)/16384 - 49999/50000| ≤ 1/32768 := by
  have hq : quantize ((49999 : ℚ)/50000) = 32766 := by
    unfold quantize jsRound
    rw [clampSample_eq (by norm_num) (by norm_num), Int.floor_eq_iff]
    norm_num
  constructor
  · rw [decode_encode [(49999 : ℚ)/50000] (by intro s hs; simp at hs; rw [hs]; norm_num)]
    rw [List.map_singleton, hq]
    norm_num
  · rw [abs_of_neg (by norm_num)]
    norm_num

/-- C3 witness: the amended theorem evaluated on the concrete frame
`[1/2, -1]`. -/
theorem codec_roundtrip_witness :
    decode (encode [(1 : ℚ)/2, -1]).data 1 = .ok [(1 : ℚ)/2, (-32767 : ℚ)/32768] := by
  have h := (codec_roundtrip [(1 : ℚ)/2, -1] (by
    intro s hs
    simp at hs
    rcases hs with rfl | rfl <;> norm_num)).1
  have hq1 : quantize ((1 : ℚ)/2) = 16384 := by
    unfold quantize jsRound
    rw [clampSample_eq (by norm_num) (by norm_num), Int.floor_eq_iff]
    norm_num
  have hq2 : quantize (-1 : ℚ) = -32767 := by
    unfold quantize jsRound
    rw [clampSample_eq (by norm_num) (by norm_num), Int.floor_eq_iff]
    norm_num
  rw [h, List.map_cons, List.map_singleton, hq1, hq2]
  norm_num

/-! ## Disconnect lemmas (C2) -/

theorem mapM_stop (l : List Source) (h : ∀ s ∈ l, s.started = true) :
    l.mapM Source.stop = .ok (l.map stoppedSource) := by
  induction l with
  | nil => rfl
  | cons a tl ih =>
      have ha : a.started = true := h a (List.mem_cons_self _ _)
      rw [List.mapM_cons, Source.stop, if_pos ha,
        ih fun s hs => h s (List.mem_cons_of_mem _ hs)]
      rfl

theorem disconnect_eq (st : ClientState) (h : sourcesStarted st) :
    disconnect st = .ok (disconnectRun st) := by
  rw [disconnect, mapM_stop st.sources h]
  rfl

theorem stoppedSource_not_playing (s : Source) : (stoppedSource s).status ≠ .playing := by
  rw [stoppedSource]
  cases hs : s.status <;> simp [hs]

theorem stoppedSource_idem (s : Source) : stoppedSource (stoppedSource s) = stoppedSource s := by
  rw [stoppedSource, stoppedSource]
  cases hs : s.status <;> simp [hs]

/-- C2: on every client state whose tracked sources have all been started
(the invariant `playAudio` maintains), `disconnect` returns without error,
afterwards no tracked source is still playing, delivering the pending
`onended` callbacks empties the source set, a second `disconnect` also
returns without error and changes nothing, and `disconnect` on the initial
state (no prior `connect`) returns without error. -/
theorem disconnect_idempotent_safe (st : ClientState) (h : sourcesStarted st) :
    disconnect st = .ok (disconnectRun st) ∧
    (∀ s ∈ (disconnectRun st).sources, s.status ≠ .playing) ∧
    (processEnded (disconnectRun st)).sources = [] ∧
    disconnect (disconnectRun st) = .ok (disconnectRun st) ∧
    disconnect initState = .ok initState := by
  refine ⟨disconnect_eq st h, ?_, ?_, ?_, ?_⟩
  · intro s hs
    rw [disconnectRun] at hs
    simp at hs
    obtain ⟨t, _, rfl⟩ := hs
    exact stoppedSource_not_playing t
  · rw [processEnded, disconnectRun]
    simp
    intro s _
    exact stoppedSource_not_playing s
  · have h2 : sourcesStarted (disconnectRun st) := by
      intro s hs
      rw [disconnectRun] at hs
      simp at hs
      obtain ⟨t, ht, rfl⟩ := hs
      exact h t ht
    rw [disconnect_eq _ h2]
    congr 1
    rw [disconnectRun, disconnectRun]
    simp [stoppedSource_idem, Option.map_map, Function.comp]
  · rfl

/-- C2 witness: `disconnect` evaluated on the concrete mid-session state
`openClient`. -/
theorem disconnect_idempotent_safe_witness :
    sourcesStarted openClient ∧
    disconnect openClient = .ok (disconnectRun openClient) ∧
    (processEnded (disconnectRun openClient)).sources = [] ∧
    disconnect (disconnectRun openClient) = .ok (disconnectRun openClient) := by
  have hs : sourcesStarted openClient := by decide
  have h := disconnect_idempotent_safe openClient hs
  exact ⟨hs, h.1, h.2.2.1, h.2.2.2.1⟩

/-! ## Capture tick lemmas (C5, C8, C9) -/

theorem sumSq_nonneg (frame : List ℚ) : 0 ≤ (frame.map fun s => s * s).sum := by
  apply List.sum_nonneg
  intro x hx
  simp at hx
  obtain ⟨s, _, rfl⟩ := hx
  exact mul_self_nonneg s

theorem sumSq_le_length (frame : List ℚ) (h : samplesInRange frame) :
    (frame.map fun s => s * s).sum ≤ frame.length := by
  induction frame with
  | nil => simp
  | cons a tl ih =>
      obtain ⟨h1, h2⟩ := h a (List.mem_cons_self _ _)
      have ha : a * a ≤ 1 := by nlinarith
      have htl := ih fun s hs => h s (List.mem_cons_of_mem _ hs)
      simp only [List.map_cons, List.sum_cons, List.length_cons]
      push_cast
      linarith

theorem meanSq_mem_unit (frame : List ℚ) (hne : frame ≠ []) (h : samplesInRange frame) :
    0 ≤ meanSq frame ∧ meanSq frame ≤ 1 := by
  have hlen : 0 < (frame.length : ℚ) := by
    exact_mod_cast List.length_pos.mpr hne
  constructor
  · exact div_nonneg (sumSq_nonneg frame) (le_of_lt hlen)
  · rw [meanSq, div_le_one hlen]
    exact sumSq_le_length frame h

/-- C5: on a muted client state, every capture tick emits exactly the
volume value 0 and forwards nothing, and over any number of consecutive
muted ticks no encoded frame reaches the outbound path while the volume
observer reports 0 on each tick. -/
theorem mute_gating (st : ClientState) (h : st.isMuted = true) :
    (∀ frame, onaudioprocess st frame = [.volumeUpdate 0]) ∧
    (∀ frames, sentChunks (onaudioticks st frames) = [] ∧
      volumeValues (onaudioticks st frames) = frames.map fun _ => 0) := by
  have h1 : ∀ frame, onaudioprocess st frame = [.volumeUpdate 0] := by
    intro frame
    rw [onaudioprocess, if_pos h]
  refine ⟨h1, fun frames => ?_⟩
  induction frames with
  | nil => exact ⟨rfl, rfl⟩
  | cons f tl ih =>
      rw [onaudioticks, List.flatMap_cons, h1 f]
      rw [onaudioticks] at ih
      constructor
      · rw [sentChunks, List.filterMap_append] at *
        simpa using ih.1
      · rw [volumeValues, List.filterMap_append] at *
        simpa using ih.2

/-- C5 witness: two muted ticks on the concrete state `mutedClient`. -/
theorem mute_gating_witness :
    mutedClient.isMuted = true ∧
    sentChunks (onaudioticks mutedClient [[1], [2]]) = [] ∧
    volumeValues (onaudioticks mutedClient [[1], [2]]) = [0, 0] := by
  have h := mute_gating mutedClient rfl
  have h2 := h.2 [[1], [2]]
  refine ⟨rfl, h2.1, ?_⟩
  rw [h2.2]
  rfl

/-- C8: on every non-empty frame whose samples lie in `[-1, 1]`, the volume
observer fires exactly once per capture tick; the reported value is 0 when
muted and otherwise the RMS of the frame, and that value — any nonnegative
real whose square is the emitted mean square — lies in `[0, 1]`. -/
theorem volume_range (st : ClientState) (frame : List ℚ) (hne : frame ≠ [])
    (h : samplesInRange frame) :
    ∃ q, volumeValues (onaudioprocess st frame) = [q] ∧ 0 ≤ q ∧ q ≤ 1 ∧
      (st.isMuted = true → q = 0) ∧
      (st.isMuted = false → q = meanSq frame) ∧
      ∀ v : ℝ, 0 ≤ v → v ^ 2 = (q : ℝ) → 0 ≤ v ∧ v ≤ 1 := by
  obtain ⟨hq0, hq1⟩ := meanSq_mem_unit frame hne h
  cases hm : st.isMuted
  · refine ⟨meanSq frame, ?_, hq0, hq1, by simp, fun _ => rfl, ?_⟩
    · cases hs : st.session.isSome <;>
        simp [onaudioprocess, hm, hs, volumeValues]
    · intro v hv hsq
      have hcast : (meanSq frame : ℝ) ≤ 1 := by exact_mod_cast hq1
      exact ⟨hv, by nlinarith⟩
  · refine ⟨0, ?_, le_refl 0, zero_le_one, fun _ => rfl, by simp, ?_⟩
    · simp [onaudioprocess, hm, volumeValues]
    · intro v hv hsq
      push_cast at hsq
      have : v = 0 := by nlinarith
      rw [this]
      exact ⟨le_refl 0, zero_le_one⟩

/-- C8 witness: one unmuted tick on the frame `[1/2, -1]` reports the mean
square `5/8` exactly once. -/
theorem volume_range_witness :
    volumeValues (onaudioprocess openClient [(1 : ℚ)/2, -1]) = [(5 : ℚ)/8] := by
  obtain ⟨q, hq, _, _, _, hunmut, _⟩ := volume_range openClient [(1 : ℚ)/2, -1]
    (by simp)
    (by intro s hs; simp at hs; rcases hs with rfl | rfl <;> norm_num)
  rw [hq, hunmut rfl]
  norm_num [meanSq]

/-- C9: `setMute b` assigns the mute flag and changes nothing else — the
session handle, both audio contexts, the timeline cursor and the source set
are untouched — emits no event (no network traffic), and takes effect on
the next captured frame: a subsequent muted tick sends nothing, while an
unmuted tick with a live session forwards exactly the encoded frame. -/
theorem setMute_frame_effect (st : ClientState) (b : Bool) :
    (setMuteRun st b).1.isMuted = b ∧
    (setMuteRun st b).2 = [] ∧
    (setMuteRun st b).1.session = st.session ∧
    (setMuteRun st b).1.inputCtx = st.inputCtx ∧
    (setMuteRun st b).1.outputCtx = st.outputCtx ∧
    (setMuteRun st b).1.nextStartTime = st.nextStartTime ∧
    (setMuteRun st b).1.sources = st.sources ∧
    (b = true → ∀ frame, onaudioprocess (setMuteRun st b).1 frame = [.volumeUpdate 0]) ∧
    (b = false → st.session.isSome = true → ∀ frame,
      sentChunks (onaudioprocess (setMuteRun st b).1 frame) = [encode frame]) := by
  refine ⟨rfl, rfl, rfl, rfl, rfl, rfl, rfl, ?_, ?_⟩
  · rintro rfl frame
    simp [onaudioprocess, setMuteRun]
  · rintro rfl hs frame
    simp [onaudioprocess, setMuteRun, hs, sentChunks]

/-- C9 witness: `setMute true` on the concrete state `openClient`. -/
theorem setMute_frame_effect_witness :
    (setMuteRun openClient true).1.isMuted = true ∧
    (setMuteRun openClient true).2 = [] ∧
    onaudioprocess (setMuteRun openClient true).1 [1, 1] = [.volumeUpdate 0] := by
  have h := setMute_frame_effect openClient true
  exact ⟨h.1, h.2.1, h.2.2.2.2.2.2.2.1 rfl [1, 1]⟩

/-! ## Transcript timing and exclusivity (C4, C10) -/

/-- C4 (amended): on a state with a non-null output context, a message
carrying model (output) transcript text has its delivery deferred by
exactly `max 0 (nextStartTime - currentClockTime)` computed at arrival,
while a message carrying user (input) transcript text and no model
transcript text is delivered immediately with zero added delay. -/
theorem transcript_timing (st : ClientState) (clock : ℚ) (msg : ServerMessage)
    (hctx : st.outputCtx.isSome = true) :
    (∀ t, msg.outputTranscription = some t →
      transcriptDeliveries (onmessage st clock msg).2 =
        [(t, false, max 0 (st.nextStartTime - clock))]) ∧
    (∀ t, msg.outputTranscription = none → msg.inputTranscription = some t →
      transcriptDeliveries (onmessage st clock msg).2 = [(t, true, 0)]) := by
  constructor
  · intro t ht
    simp [onmessage, ht, hctx, transcriptDeliveries]
  · intro t ho hi
    simp [onmessage, ho, hi, hctx, transcriptDeliveries]

/-- C4 counterexample: the message `dualMsg` carries user transcript text,
yet its user text is never delivered (with zero delay or otherwise) — only
the model text is, deferred by the current latency — refuting the claim
that every message carrying user transcript text is delivered
immediately. -/
theorem transcript_timing_counterexample :
    dualMsg.inputTranscription = some "user" ∧
    transcriptDeliveries (onmessage openClient 0 dualMsg).2 = [("model", false, 2)] ∧
    ("user", true, (0 : ℚ)) ∉ transcriptDeliveries (onmessage openClient 0 dualMsg).2 := by
  have he : transcriptDeliveries (onmessage openClient 0 dualMsg).2 = [("model", false, 2)] := by
    simp [onmessage, openClient, dualMsg, transcriptDeliveries]
  refine ⟨rfl, he, ?_⟩
  rw [he]
  intro hmem
  simp at hmem

/-- C4 witness: on `openClient` (cursor 2 seconds ahead, clock 0) a model
transcript is deferred by 2 seconds and a user transcript by 0. -/
theorem transcript_timing_witness :
    openClient.outputCtx.isSome = true ∧
    transcriptDeliveries (onmessage openClient 0 outMsgExample).2 = [("hello", false, 2)] ∧
    transcriptDeliveries (onmessage openClient 0 inMsgExample).2 = [("hi", true, 0)] := by
  have h := transcript_timing openClient 0 outMsgExample rfl
  have h2 := transcript_timing openClient 0 inMsgExample rfl
  refine ⟨rfl, ?_, h2.2 "hi" rfl rfl⟩
  rw [h.1 "hello" rfl]
  norm_num [openClient]

/-- C10: every inbound message produces at most one transcript delivery,
and when a message carries both an output and an input transcription only
the model transcript is delivered (deferred by the current latency); the
user transcription text of that message is never delivered. -/
theorem transcript_exclusive (st : ClientState) (clock : ℚ) (msg : ServerMessage) :
    (transcriptDeliveries (onmessage st clock msg).2).length ≤ 1 ∧
    (∀ t u, msg.outputTranscription = some t → msg.inputTranscription = some u →
      transcriptDeliveries (onmessage st clock msg).2 =
        [(t, false, max 0 (st.nextStartTime - (if st.outputCtx.isSome then clock else 0)))]) := by
  constructor
  · rcases ho : msg.outputTranscription with _ | t
    · rcases hi : msg.inputTranscription with _ | u
      · simp [onmessage, ho, hi, transcriptDeliveries]
      · simp [onmessage, ho, hi, transcriptDeliveries]
    · simp [onmessage, ho, transcriptDeliveries]
  · intro t u ho hi
    simp [onmessage, ho, transcriptDeliveries]

/-- C10 witness: the dual-transcription message on `openClient` at clock 3
yields exactly the model delivery. -/
theorem transcript_exclusive_witness :
    dualMsg.outputTranscription = some "model" ∧
    dualMsg.inputTranscription = some "user" ∧
    transcriptDeliveries (onmessage openClient 3 dualMsg).2 = [("model", false, 0)] := by
  have h := (transcript_exclusive openClient 3 dualMsg).2 "model" "user" rfl rfl
  refine ⟨rfl, rfl, ?_⟩
  rw [h]
  norm_num [openClient]

/-! ## Turn merging (C6) -/

/-- C6: a transcript delivery whose speaker matches the most recent
accumulated turn concatenates its text onto that turn, a delivery with a
different speaker starts a new turn, and the scenario
`(model, "Hel"), (model, "lo"), (user, "Hi")` applied to an empty list
yields exactly the two turns `model "Hello"` and `user "Hi"`. -/
theorem turn_merging :
    (∀ prev text isUser lastMsg, prev.getLast? = some lastMsg →
      (lastMsg.role = roleOf isUser →
        applyTranscript prev text isUser =
          prev.dropLast ++ [{ role := lastMsg.role, text := lastMsg.text ++ text }]) ∧
      (lastMsg.role ≠ roleOf isUser →
        applyTranscript prev text isUser = prev ++ [{ role := roleOf isUser, text := text }])) ∧
    applyTranscripts [] [("Hel", false), ("lo", false), ("Hi", true)] =
      [{ role := .model, text := "Hello" }, { role := .user, text := "Hi" }] := by
  constructor
  · intro prev text isUser lastMsg hlast
    constructor
    · intro hrole
      simp [applyTranscript, hlast, hrole]
    · intro hrole
      simp [applyTranscript, hlast, hrole]
  · decide

/-- C6 witness: a same-speaker delivery appended onto a concrete open model
turn. -/
theorem turn_merging_witness :
    applyTranscript [{ role := .model, text := "Hel" }] "lo" false =
      [{ role := .model, text := "Hello" }] := by
  have h := (turn_merging.1 [{ role := .model, text := "Hel" }] "lo" false
      { role := .model, text := "Hel" } rfl).1 rfl
  exact h.trans (by decide)

/-! ## Connect failure reporting (C7) -/

/-- C7 counterexample: when the microphone is denied, `connect()` rejects
(the failure is reported to the caller) but the activity observer receives
no call at all — in particular no `isActive = false` — refuting the claim
that every connect failure notifies the observer with `isActive = false`. -/
theorem connect_failure_counterexample :
    (runConnect .denied .accepts).result = .error .captureUnavailable ∧
    (runConnect .denied .accepts).activityCalls = [] ∧
    false ∉ (runConnect .denied .accepts).activityCalls := by
  refine ⟨rfl, rfl, ?_⟩
  intro hmem
  simp [runConnect] at hmem

/-- C7 (amended): no connect path ever retries; when microphone acquisition
fails, `connect()` rejects with `CaptureUnavailable` and the activity
observer is not invoked at all; a remote rejection does not reject
`connect()` (the session promise is never awaited) and is instead reported
through the error callback as `isActive = false`, while a successful
handshake reports `isActive = true`. -/
theorem connect_failure_reporting (mic : MicResult) (remote : RemoteOutcome) :
    (runConnect mic remote).connectAttempts = 1 ∧
    (mic = .denied → (runConnect mic remote).result = .error .captureUnavailable ∧
      (runConnect mic remote).activityCalls = []) ∧
    (mic = .granted → remote = .rejects →
      (runConnect mic remote).result = .ok () ∧
      (runConnect mic remote).activityCalls = [false]) ∧
    (mic = .granted → remote = .accepts →
      (runConnect mic remote).activityCalls = [true]) := by
  cases mic <;> cases remote <;> simp [runConnect]

/-- C7 witness: the amended behaviour evaluated on the two failing
environments. -/
theorem connect_failure_witness :
    (runConnect .denied .accepts).connectAttempts = 1 ∧
    (runConnect .denied .accepts).activityCalls = [] ∧
    (runConnect .granted .rejects).activityCalls = [false] :=
  ⟨(connect_failure_reporting .denied .accepts).1,
   ((connect_failure_reporting .denied .accepts).2.1 rfl).2,
   ((connect_failure_reporting .granted .rejects).2.2.1 rfl rfl).2⟩

end Mickey
